import Mathlib

/-!
A shallow embedding of the memory-residency tracer in
`src/crates/mevi/src/tracer.rs` (the `mevi` crate), together with proofs
about the behaviour of its syscall-exit observer (`Tracee::on_sys_exit`),
its remote-syscall injector and UFFD handoff (`Tracee::make_uffd`), and the
supervisor loop's event delivery and error handling (`Tracer::run`).

Machine integers are modelled as `Nat` reduced modulo `2 ^ 64` where the
source works with `u64`/`usize`, with explicit reinterpretation functions
for the source's `as i32` / `as i64` casts.  Kernel interactions (return
values of injected syscalls, register effects of letting the tracee run)
are modelled as explicit oracles passed in as function arguments.
-/

namespace Mevi

/-- Word size: all tracee registers and addresses are 64-bit. -/
def W : Nat := 2 ^ 64

/-- Reinterpret the low 32 bits of a `u64` value as a signed `i32`
(the source's `as i32` cast, used for `fd` and syscall return values). -/
def toI32 (n : Nat) : Int :=
  let m : Nat := n % 2 ^ 32
  if m < 2 ^ 31 then (m : Int) else (m : Int) - 2 ^ 32

/-- Reinterpret a `u64` value as a signed `i64`
(the source's `as i64` cast, used for the syscall number `orig_rax`). -/
def toI64 (n : Nat) : Int :=
  let m : Nat := n % 2 ^ 64
  if m < 2 ^ 63 then (m : Int) else (m : Int) - 2 ^ 64

/-! Linux x86-64 syscall numbers used by the tracer (`libc::SYS_*`). -/

def SYS_write : Int := 1
def SYS_close : Int := 3
def SYS_mmap : Int := 9
def SYS_munmap : Int := 11
def SYS_brk : Int := 12
def SYS_rt_sigprocmask : Int := 14
def SYS_ioctl : Int := 16
def SYS_socket : Int := 41
def SYS_connect : Int := 42
def SYS_sendmsg : Int := 46
def SYS_execve : Int := 59
def SYS_set_robust_list : Int := 273
def SYS_execveat : Int := 322
def SYS_userfaultfd : Int := 323
def SYS_rseq : Int := 334

/-- Residency tag carried by `Map` events (`MemState` in the crate root;
only these two variants are produced by the tracer core). -/
inductive MemState where
  | Resident
  | NotResident
deriving DecidableEq

/-- The completion token of a `Map` event: `MapGuard { _inner: Option<Sender<…>> }`.
`inner = some ()` models `Some(tx)` (a live one-shot sender, dropped by the
consumer), `inner = none` models `None` (no token at all). -/
structure MapGuard where
  inner : Option Unit
deriving DecidableEq

/-- Half-open `[start, stop)` range of virtual addresses
(`Range<usize>` in the source; `end` is a Lean keyword, hence `stop`). -/
structure Range where
  start : Nat
  stop : Nat
deriving DecidableEq

/-- Outbound per-tracee event payload (`TraceePayload` in the crate root). -/
inductive TraceePayload where
  | Map (range : Range) (state : MemState) (guard : MapGuard)
  | Execve
  | Exit
deriving DecidableEq

/-- The tracee register file: the fields of `libc::user_regs_struct` that
`tracer.rs` reads or writes.  All values are `u64`, modelled mod `W`. -/
structure Regs where
  rax : Nat
  orig_rax : Nat
  rdi : Nat
  rsi : Nat
  rdx : Nat
  r10 : Nat
  r8 : Nat
  r9 : Nat
  rip : Nat
deriving DecidableEq

/-- Per-tracee state (`struct Tracee`, minus the redundant `tid`):
syscall phase flag, observed heap range, and whether a userfaultfd has been
installed (`uffd: Option<()>`). -/
structure TraceeState where
  was_in_syscall : Bool
  heap_range : Option Range
  uffd : Option Unit
deriving DecidableEq

/-- A region observed via a syscall exit (`struct Mapped`). -/
structure Mapped where
  range : Range
  resident : MemState
deriving DecidableEq

/-- One entry of the kernel's per-process VMA listing as surfaced by
`proc_maps::get_process_maps`: start address, size, and backing file. -/
structure ProcMap where
  start : Nat
  size : Nat
  filename : Option String
deriving DecidableEq

/-- The initial map enumerator at the end of `Tracee::make_uffd`: for every
listed region whose backing file is absent, send a
`Map { range: start..start+size, state: NotResident, _guard: MapGuard { _inner: None } }`
event.  Note the guard's inner sender is `None`. -/
def enumerate_maps (maps : List ProcMap) : List TraceePayload :=
  (maps.filter fun m => m.filename.isNone).map fun m =>
    TraceePayload.Map ⟨m.start, m.start + m.size⟩ MemState.NotResident ⟨none⟩

/-- The syscall number of a syscall-exit stop: `regs.orig_rax as i64`. -/
def sysNr (regs : Regs) : Int := toI64 regs.orig_rax

/-- The allowlist of syscalls considered too early for uffd installation in
`on_sys_exit`: `rseq`, `set_robust_list`, `rt_sigprocmask`, and `execve`.
Note `execveat` is not on this list. -/
def tooEarly (nr : Int) : Prop :=
  nr = SYS_rseq ∨ nr = SYS_set_robust_list ∨ nr = SYS_rt_sigprocmask ∨ nr = SYS_execve

instance (nr : Int) : Decidable (tooEarly nr) := by
  unfold tooEarly
  infer_instance

/-- The syscalls handled by the `SYS_execve | SYS_execveat` arm of the
second match in `on_sys_exit`. -/
def execveFam (nr : Int) : Prop := nr = SYS_execve ∨ nr = SYS_execveat

instance (nr : Int) : Decidable (execveFam nr) := by
  unfold execveFam
  infer_instance

/-- Input to one syscall-exit observation: the register snapshot obtained
by `ptrace::getregs`, plus the proc-maps listing the initial map enumerator
would see if the injector runs at this exit. -/
structure ExitInput where
  regs : Regs
  maps : List ProcMap
deriving DecidableEq

/-- Result of one syscall-exit observation: the updated tracee state,
whether the injector (`make_uffd`) ran, the events sent directly on the
channel during `on_sys_exit` (enumerated maps and `Execve`), and the
`Mapped` region returned to `Tracer::run` (if any). -/
structure ExitOutcome where
  state : TraceeState
  injector_ran : Bool
  sent : List TraceePayload
  mapped : Option Mapped
deriving DecidableEq

/-- First phase of `on_sys_exit` (the `if self.uffd.is_none()` match): when
no uffd is installed and the syscall is not on the too-early allowlist, run
`make_uffd`, which installs the uffd and emits the initial map enumeration.
The injector is modelled here by its effect on the tracee state and event
stream; its full syscall sequence is modelled separately by
`make_uffd_run`.  (On injection failure the source panics, so no further
exits would be processed at all.) -/
def injector_phase (inp : ExitInput) (s : TraceeState) :
    TraceeState × Bool × List TraceePayload :=
  if s.uffd = none then
    if tooEarly (sysNr inp.regs) then (s, false, [])
    else ({ s with uffd := some () }, true, enumerate_maps inp.maps)
  else (s, false, [])

/-- Second phase of `on_sys_exit` (the `match regs.orig_rax as i64` block):
memory-affecting syscalls.
`execve`/`execveat` clear `heap_range` and `uffd` and send `Execve`;
`mmap` with `fd == -1 && addr == 0` yields `Mapped { ret..ret+len, NotResident }`
(no check that the mmap succeeded, and the addition wraps mod `W`);
`brk(0)` records `ret..ret` as the heap range only if none is known;
`brk(nonzero)` with a known heap range stores `ret` as the new top and
yields `Mapped { old_top..ret, Resident }` exactly when `ret > old_top`. -/
def memory_phase (regs : Regs) (s1 : TraceeState) :
    TraceeState × List TraceePayload × Option Mapped :=
  if execveFam (sysNr regs) then
    ({ s1 with heap_range := none, uffd := none }, [TraceePayload.Execve], none)
  else if sysNr regs = SYS_mmap then
    if toI32 regs.r8 = -1 ∧ regs.rdi = 0 then
      (s1, [], some ⟨⟨regs.rax, (regs.rax + regs.rsi) % W⟩, MemState.NotResident⟩)
    else (s1, [], none)
  else if sysNr regs = SYS_brk then
    if regs.rdi = 0 then
      if s1.heap_range = none then
        ({ s1 with heap_range := some ⟨regs.rax, regs.rax⟩ }, [], none)
      else (s1, [], none)
    else
      match s1.heap_range with
      | some hr =>
        if hr.stop < regs.rax then
          ({ s1 with heap_range := some ⟨hr.start, regs.rax⟩ }, [],
            some ⟨⟨hr.stop, regs.rax⟩, MemState.Resident⟩)
        else ({ s1 with heap_range := some ⟨hr.start, regs.rax⟩ }, [], none)
      | none => (s1, [], none)
  else (s1, [], none)

/-- `Tracee::on_sys_exit`: the injector phase followed by the
memory-observation phase.  Events are sent in source order: initial map
enumeration (from inside `make_uffd`), then `Execve` if applicable; the
returned `Mapped` is delivered afterwards by `Tracer::run`. -/
def on_sys_exit (inp : ExitInput) (s : TraceeState) : ExitOutcome :=
  let (s1, ran, sent1) := injector_phase inp s
  let (s2, sent2, m) := memory_phase inp.regs s1
  ⟨s2, ran, sent1 ++ sent2, m⟩

/-- One channel send as performed by the tracer, together with whether the
tracer then blocks until the consumer drops the event's completion token
(the `_ = rx.recv()` after `self.tx.send(ev)` in `Tracer::run`). -/
structure Emission where
  payload : TraceePayload
  waits_for_guard_drop : Bool
deriving DecidableEq

/-- All channel sends caused by one syscall-exit observation, in order:
the events sent directly inside `on_sys_exit` (no completion wait), then,
if a `Mapped` was returned, the `Map` event `Tracer::run` builds with a
fresh completion token (`MapGuard { _inner: Some(tx) }`) and waits on. -/
def exit_emissions (out : ExitOutcome) : List Emission :=
  (out.sent.map fun p => ⟨p, false⟩) ++
    match out.mapped with
    | some m => [⟨TraceePayload.Map m.range m.resident ⟨some ()⟩, true⟩]
    | none => []

/-- One step of a per-tracee run of syscall-exit observations. -/
structure StepRec where
  before : TraceeState
  inp : ExitInput
  out : ExitOutcome
deriving DecidableEq

/-- Process a list of syscall-exit observations for one tracee, threading
the tracee state, and record each step. -/
def runTrace : TraceeState → List ExitInput → List StepRec
  | _, [] => []
  | s, inp :: rest => ⟨s, inp, on_sys_exit inp s⟩ :: runTrace (on_sys_exit inp s).state rest

/-! ## The remote syscall injector (`Tracee::make_uffd`) -/

/-- Write the `i`-th syscall argument into the x86-64 argument register,
as in the `for (i, arg) in args.iter().enumerate()` loop of `invoke`.
For `i ≥ 6` the source panics with "too many args"; no call site passes
more than six arguments, and that case leaves the registers unchanged
here (the fallible wrapper `invoke` rejects such calls). -/
def setArg (r : Regs) (i : Nat) (a : Nat) : Regs :=
  match i with
  | 0 => { r with rdi := a }
  | 1 => { r with rsi := a }
  | 2 => { r with rdx := a }
  | 3 => { r with r10 := a }
  | 4 => { r with r8 := a }
  | 5 => { r with r9 := a }
  | _ => r

/-- Fold `setArg` over an argument list starting at position `i`. -/
def patchArgs : Regs → Nat → List Nat → Regs
  | r, _, [] => r
  | r, i, a :: rest => patchArgs (setArg r i a) (i + 1) rest

/-- The register file `invoke(nr, args)` writes into the tracee: a copy of
the saved snapshot with `rax := nr`, the instruction pointer rewound by the
two-byte length of the syscall instruction (`call_regs.rip -= 2`, wrapping
on `u64`), and the arguments placed in `rdi, rsi, rdx, r10, r8, r9`. -/
def patchRegs (saved : Regs) (nr : Nat) (args : List Nat) : Regs :=
  patchArgs { saved with rax := nr % W, rip := (saved.rip + (W - 2)) % W } 0 args

/-- `invoke(nr, args)`: set the patched registers, run two `sys_step`s (the
injected call's enter and exit stops), and read the return value from the
tracee's `rax`.  The tracee-plus-kernel effect of the two syscall steps is
the oracle `kern`; more than six arguments models the source's panic. -/
def invoke (kern : Regs → Regs) (saved : Regs) (nr : Nat) (args : List Nat) : Option Nat :=
  if args.length ≤ 6 then some ((kern (patchRegs saved nr args)).rax) else none

/-! ## The UFFD handoff sequence (`Tracee::make_uffd`, body) -/

/-- `MAP_FAILED as usize` on a 64-bit target. -/
def MAP_FAILED : Nat := W - 1

/-- The `UFFDIO_API` ioctl request number
(`_IOWR(0xAA, 0x3F, struct uffdio_api)`). -/
def UFFDIO_API : Nat := 0xc018aa3f

/-- `PROT_READ | PROT_WRITE`. -/
def PROT_READ_WRITE : Nat := 3

/-- `MAP_PRIVATE | MAP_ANONYMOUS`. -/
def MAP_PRIVATE_ANONYMOUS : Nat := 0x22

/-- `AF_UNIX`. -/
def AF_UNIX : Nat := 1

/-- `SOCK_STREAM | SOCK_CLOEXEC`. -/
def SOCK_STREAM_CLOEXEC : Nat := 0x80001

/-- The `connect` address length: `2 + sock_path.len()` where `sock_path`
is the NUL-terminated rendezvous path `/tmp/mevi.sock` (15 bytes). -/
def MEVI_SOCK_ADDR_LEN : Nat := 17

/-- The observable outcome of a successful `make_uffd`: the injected
syscalls in order (number and argument registers), the successive register
files written into the tracee via `ptrace::setregs`, and the
`self.uffd = Some(())` mark.  Data ferried through the staging page by
`ptrace::write`/`ptrace::read` (the `uffdio_api` struct, `sockaddr_un`,
pid bytes and `msghdr`/`iovec`/`cmsghdr` layout) does not touch registers
and is not recorded here. -/
structure UffdRun where
  calls : List (Nat × List Nat)
  setregs_trace : List Regs
  uffd_installed : Bool
deriving DecidableEq

/-- The UFFD handoff sequence of `Tracee::make_uffd`, driven by the oracle
`retOf i` = the value found in `rax` after the `i`-th injected syscall.
Mirrors the source's fatal checks: `MAP_FAILED` from the staging `mmap`,
and a negative `as i32` return from `userfaultfd`, `ioctl`, `socket`,
`connect`, `write` or `sendmsg`, are fatal (`panic!` in the source); the
returns of `close` and `munmap` are only logged.  On success the injected
calls are, in order: mmap the staging page, `userfaultfd(0)`,
`ioctl(UFFDIO_API)`, `socket`, `connect`, `write` (the 8-byte PID),
`sendmsg` (`SCM_RIGHTS` carrying the uffd), `close(sock_fd)`,
`close(raw_uffd)`, and `munmap` of the staging page — after which the
saved register snapshot is written back (`ptrace::setregs(pid, saved_regs)`
is the last `setregs`, and the subsequent map enumeration only sends
events), and `uffd` is marked installed. -/
def make_uffd_run (retOf : Nat → Nat) (saved : Regs) : Except String UffdRun :=
  let staging := retOf 0 % W
  if staging = MAP_FAILED then
    Except.error "failed to allocate staging area: returned MAP_FAILED"
  else
    let r1 := toI32 (retOf 1 % W)
    if r1 < 0 then Except.error "userfaultfd failed"
    else
      let raw_uffd := r1.toNat
      let r2 := toI32 (retOf 2 % W)
      if r2 < 0 then Except.error "ioctl failed"
      else
        let r3 := toI32 (retOf 3 % W)
        if r3 < 0 then Except.error "socket failed"
        else
          let sock_fd := r3.toNat
          let r4 := toI32 (retOf 4 % W)
          if r4 < 0 then Except.error "connect failed"
          else
            let r5 := toI32 (retOf 5 % W)
            if r5 < 0 then Except.error "write failed"
            else
              let r6 := toI32 (retOf 6 % W)
              if r6 < 0 then Except.error "sendmsg failed"
              else
                let calls : List (Nat × List Nat) :=
                  [(SYS_mmap.toNat,
                     [0, 0x1000, PROT_READ_WRITE, MAP_PRIVATE_ANONYMOUS, W - 1, 0]),
                   (SYS_userfaultfd.toNat, [0]),
                   (SYS_ioctl.toNat, [raw_uffd, UFFDIO_API, staging]),
                   (SYS_socket.toNat, [AF_UNIX, SOCK_STREAM_CLOEXEC, 0]),
                   (SYS_connect.toNat, [sock_fd, staging, MEVI_SOCK_ADDR_LEN]),
                   (SYS_write.toNat, [sock_fd, staging, 8]),
                   (SYS_sendmsg.toNat, [sock_fd, staging, 0]),
                   (SYS_close.toNat, [sock_fd]),
                   (SYS_close.toNat, [raw_uffd]),
                   (SYS_munmap.toNat, [staging, 0x1000])]
                Except.ok
                  { calls := calls
                    setregs_trace := calls.map (fun c => patchRegs saved c.1 c.2) ++ [saved]
                    uffd_installed := true }

/-- All the source's fatal checks on the injected syscalls' return values
pass: the staging `mmap` did not return `MAP_FAILED` and none of the
checked calls returned a negative `i32`. -/
def uffd_checks_pass (retOf : Nat → Nat) : Prop :=
  retOf 0 % W ≠ MAP_FAILED ∧
    0 ≤ toI32 (retOf 1 % W) ∧ 0 ≤ toI32 (retOf 2 % W) ∧ 0 ≤ toI32 (retOf 3 % W) ∧
    0 ≤ toI32 (retOf 4 % W) ∧ 0 ≤ toI32 (retOf 5 % W) ∧ 0 ≤ toI32 (retOf 6 % W)

instance (retOf : Nat → Nat) : Decidable (uffd_checks_pass retOf) := by
  unfold uffd_checks_pass
  infer_instance

/-- Projection of a handoff result: the injected calls (empty on failure). -/
def okCalls : Except String UffdRun → List (Nat × List Nat)
  | Except.ok r => r.calls
  | Except.error _ => []

/-- Projection of a handoff result: the `setregs` trace (empty on failure). -/
def okSetregs : Except String UffdRun → List Regs
  | Except.ok r => r.setregs_trace
  | Except.error _ => []

/-- Projection of a handoff result: was the uffd marked installed? -/
def okInstalled : Except String UffdRun → Bool
  | Except.ok r => r.uffd_installed
  | Except.error _ => false

/-- Did the handoff complete without a fatal error? -/
def isOkRun : Except String UffdRun → Bool
  | Except.ok _ => true
  | Except.error _ => false

/-! ## Supervisor-loop error handling (`Tracer::run`) -/

/-- The `ptrace` error values relevant to the tracer's error policy. -/
inductive Errno where
  | ESRCH
  | EPERM
  | EIO
  | EINVAL
deriving DecidableEq

/-- What the supervisor loop does next after a resume attempt. -/
inductive TracerAction where
  | continue_loop
  | abort
deriving DecidableEq

/-- Resuming a tracee after a syscall-exit stop (`Tracer::run`, the
`if let Err(e) = ptrace::syscall(pid, None)` after event delivery): the
source only tests `e == ESRCH` to log a message, with no `else` branch, so
the loop continues for every error value. -/
def resume_after_sys_exit (res : Option Errno) : TracerAction :=
  match res with
  | none => TracerAction.continue_loop
  | some e =>
    if e = Errno.ESRCH then TracerAction.continue_loop
    else TracerAction.continue_loop

/-- Resuming a tracee after a syscall-enter stop (`Tracer::run`, the
`match ptrace::syscall(pid, None)` in the enter branch): `ESRCH` is
tolerated with a log message, any other error panics. -/
def resume_after_sys_enter (res : Option Errno) : TracerAction :=
  match res with
  | none => TracerAction.continue_loop
  | some e =>
    if e = Errno.ESRCH then TracerAction.continue_loop
    else TracerAction.abort

/-! ## Helper lemmas -/

theorem on_sys_exit_out (inp : ExitInput) (s : TraceeState) :
    on_sys_exit inp s =
      ⟨(memory_phase inp.regs (injector_phase inp s).1).1,
       (injector_phase inp s).2.1,
       (injector_phase inp s).2.2 ++ (memory_phase inp.regs (injector_phase inp s).1).2.1,
       (memory_phase inp.regs (injector_phase inp s).1).2.2⟩ := rfl

theorem injector_phase_ran_iff (inp : ExitInput) (s : TraceeState) :
    (injector_phase inp s).2.1 = true ↔ s.uffd = none ∧ ¬ tooEarly (sysNr inp.regs) := by
  unfold injector_phase
  split_ifs with h1 h2 <;> simp_all

theorem injector_phase_uffd (inp : ExitInput) (s : TraceeState) :
    (injector_phase inp s).1.uffd =
      if s.uffd = none ∧ ¬ tooEarly (sysNr inp.regs) then some () else s.uffd := by
  unfold injector_phase
  split_ifs with h1 h2 <;> simp_all

theorem injector_phase_heap (inp : ExitInput) (s : TraceeState) :
    (injector_phase inp s).1.heap_range = s.heap_range := by
  unfold injector_phase
  split_ifs <;> rfl

theorem injector_phase_sent_cases (inp : ExitInput) (s : TraceeState) :
    (injector_phase inp s).2.2 = [] ∨
      (injector_phase inp s).2.2 = enumerate_maps inp.maps := by
  unfold injector_phase
  split_ifs <;> simp

theorem memory_phase_uffd (regs : Regs) (s1 : TraceeState) :
    (memory_phase regs s1).1.uffd =
      if execveFam (sysNr regs) then none else s1.uffd := by
  unfold memory_phase
  split_ifs <;> first
    | rfl
    | (split <;> first | rfl | (split_ifs <;> rfl))

theorem memory_phase_execve (regs : Regs) (s1 : TraceeState)
    (h : execveFam (sysNr regs)) :
    memory_phase regs s1 =
      ({ s1 with heap_range := none, uffd := none }, [TraceePayload.Execve], none) := by
  unfold memory_phase
  simp [h]

theorem memory_phase_sent_cases (regs : Regs) (s1 : TraceeState) :
    (memory_phase regs s1).2.1 = [] ∨
      (memory_phase regs s1).2.1 = [TraceePayload.Execve] := by
  unfold memory_phase
  split_ifs <;> first
    | simp
    | (split <;> first | simp | (split_ifs <;> simp))

theorem mem_enumerate_maps_guard (maps : List ProcMap) (r : Range) (st : MemState)
    (g : MapGuard) (h : TraceePayload.Map r st g ∈ enumerate_maps maps) :
    g = ⟨none⟩ := by
  simp only [enumerate_maps, List.mem_map, List.mem_filter] at h
  obtain ⟨m, _, he⟩ := h
  cases he
  rfl

theorem sent_map_guard_none (inp : ExitInput) (s : TraceeState) (r : Range)
    (st : MemState) (g : MapGuard)
    (h : TraceePayload.Map r st g ∈ (on_sys_exit inp s).sent) : g = ⟨none⟩ := by
  rw [on_sys_exit_out] at h
  simp only [List.mem_append] at h
  rcases h with h | h
  · rcases injector_phase_sent_cases inp s with he | he <;> rw [he] at h
    · simp at h
    · exact mem_enumerate_maps_guard _ _ _ _ h
  · rcases memory_phase_sent_cases inp.regs (injector_phase inp s).1 with he | he <;>
      rw [he] at h <;> simp at h

theorem runTrace_length (s : TraceeState) (l : List ExitInput) :
    (runTrace s l).length = l.length := by
  induction l generalizing s with
  | nil => rfl
  | cons inp rest ih => simp [runTrace, ih]

theorem runTrace_out (s : TraceeState) (l : List ExitInput) (k : Nat)
    (hk : k < (runTrace s l).length) :
    ((runTrace s l).get ⟨k, hk⟩).out =
      on_sys_exit ((runTrace s l).get ⟨k, hk⟩).inp ((runTrace s l).get ⟨k, hk⟩).before := by
  induction l generalizing s k with
  | nil => simp [runTrace] at hk
  | cons inp rest ih =>
    cases k with
    | zero => rfl
    | succ k2 => exact ih (on_sys_exit inp s).state k2 _

theorem on_sys_exit_ran_before (inp : ExitInput) (s : TraceeState)
    (h : (on_sys_exit inp s).injector_ran = true) :
    s.uffd = none ∧ ¬ tooEarly (sysNr inp.regs) := by
  rw [on_sys_exit_out] at h
  exact (injector_phase_ran_iff inp s).mp h

theorem on_sys_exit_ran_installs (inp : ExitInput) (s : TraceeState)
    (h : (on_sys_exit inp s).injector_ran = true)
    (hfam : ¬ execveFam (sysNr inp.regs)) :
    (on_sys_exit inp s).state.uffd = some () := by
  have hc := on_sys_exit_ran_before inp s h
  rw [on_sys_exit_out]
  simp only [memory_phase_uffd, injector_phase_uffd, if_neg hfam, if_pos hc]

theorem on_sys_exit_uffd_reset (inp : ExitInput) (s : TraceeState)
    (hs : s.uffd = some ())
    (h : (on_sys_exit inp s).state.uffd = none) :
    execveFam (sysNr inp.regs) := by
  rw [on_sys_exit_out] at h
  simp only [memory_phase_uffd, injector_phase_uffd] at h
  by_contra hfam
  rw [if_neg hfam] at h
  split_ifs at h with hc
  rw [hs] at h
  exact Option.noConfusion h

theorem on_sys_exit_execve (inp : ExitInput) (s : TraceeState)
    (hfam : execveFam (sysNr inp.regs)) :
    (on_sys_exit inp s).state.uffd = none ∧
      (on_sys_exit inp s).state.heap_range = none ∧
      TraceePayload.Execve ∈ (on_sys_exit inp s).sent ∧
      (on_sys_exit inp s).mapped = none := by
  rw [on_sys_exit_out]
  rw [memory_phase_execve inp.regs (injector_phase inp s).1 hfam]
  simp

theorem runTrace_ran_before (s : TraceeState) (l : List ExitInput) (k : Nat)
    (hk : k < (runTrace s l).length)
    (h : ((runTrace s l).get ⟨k, hk⟩).out.injector_ran = true) :
    ((runTrace s l).get ⟨k, hk⟩).before.uffd = none := by
  rw [runTrace_out s l k hk] at h
  exact (on_sys_exit_ran_before _ _ h).1

theorem runTrace_reach_none (l : List ExitInput) (s0 : TraceeState)
    (h0 : s0.uffd = some ()) (j : Nat) (hj : j < (runTrace s0 l).length)
    (hnone : ((runTrace s0 l).get ⟨j, hj⟩).before.uffd = none) :
    ∃ k, ∃ hk : k < (runTrace s0 l).length, k < j ∧
      TraceePayload.Execve ∈ ((runTrace s0 l).get ⟨k, hk⟩).out.sent := by
  induction l generalizing s0 j with
  | nil => simp [runTrace] at hj
  | cons inp rest ih =>
    cases j with
    | zero =>
      have : s0.uffd = none := hnone
      rw [h0] at this
      exact Option.noConfusion this
    | succ j2 =>
      have hj2 : j2 < (runTrace (on_sys_exit inp s0).state rest).length := by
        have := hj
        simp only [runTrace, List.length_cons] at this
        omega
      have hnone2 :
          ((runTrace (on_sys_exit inp s0).state rest).get ⟨j2, hj2⟩).before.uffd = none :=
        hnone
      by_cases hs1 : (on_sys_exit inp s0).state.uffd = none
      · -- the first step flipped the flag from some to none: it is an execve-family exit
        have hfam := on_sys_exit_uffd_reset inp s0 h0 hs1
        exact ⟨0, Nat.lt_of_le_of_lt (Nat.zero_le _) hj, Nat.zero_lt_succ j2,
          (on_sys_exit_execve inp s0 hfam).2.2.1⟩
      · have hs1some : (on_sys_exit inp s0).state.uffd = some () := by
          rcases ho : (on_sys_exit inp s0).state.uffd with _ | u
          · exact absurd ho hs1
          · cases u
            rfl
        obtain ⟨k, hk, hkj, hmem⟩ := ih (on_sys_exit inp s0).state hs1some j2 hj2 hnone2
        refine ⟨k + 1, ?_, by omega, hmem⟩
        simp only [runTrace, List.length_cons]
        omega

theorem runTrace_two_runs (l : List ExitInput) (s0 : TraceeState) (i j : Nat)
    (hi : i < (runTrace s0 l).length) (hj : j < (runTrace s0 l).length) (hij : i < j)
    (ri : ((runTrace s0 l).get ⟨i, hi⟩).out.injector_ran = true)
    (rj : ((runTrace s0 l).get ⟨j, hj⟩).out.injector_ran = true) :
    ∃ k, ∃ hk : k < (runTrace s0 l).length, i ≤ k ∧ k < j ∧
      TraceePayload.Execve ∈ ((runTrace s0 l).get ⟨k, hk⟩).out.sent := by
  induction l generalizing s0 i j with
  | nil => simp [runTrace] at hi
  | cons inp rest ih =>
    cases i with
    | zero =>
      cases j with
      | zero => omega
      | succ j2 =>
        have hj2 : j2 < (runTrace (on_sys_exit inp s0).state rest).length := by
          have := hj
          simp only [runTrace, List.length_cons] at this
          omega
        by_cases hfam : execveFam (sysNr inp.regs)
        · exact ⟨0, Nat.lt_of_le_of_lt (Nat.zero_le _) hj, Nat.le_refl 0,
            Nat.zero_lt_succ j2, (on_sys_exit_execve inp s0 hfam).2.2.1⟩
        · have hs1some : (on_sys_exit inp s0).state.uffd = some () :=
            on_sys_exit_ran_installs inp s0 ri hfam
          have rj2 : ((runTrace (on_sys_exit inp s0).state rest).get
              ⟨j2, hj2⟩).out.injector_ran = true := rj
          have hnone2 := runTrace_ran_before (on_sys_exit inp s0).state rest j2 hj2 rj2
          obtain ⟨k, hk, hkj, hmem⟩ :=
            runTrace_reach_none rest (on_sys_exit inp s0).state hs1some j2 hj2 hnone2
          refine ⟨k + 1, ?_, Nat.zero_le _, by omega, hmem⟩
          simp only [runTrace, List.length_cons]
          omega
    | succ i2 =>
      cases j with
      | zero => omega
      | succ j2 =>
        have hi2 : i2 < (runTrace (on_sys_exit inp s0).state rest).length := by
          have := hi
          simp only [runTrace, List.length_cons] at this
          omega
        have hj2 : j2 < (runTrace (on_sys_exit inp s0).state rest).length := by
          have := hj
          simp only [runTrace, List.length_cons] at this
          omega
        obtain ⟨k, hk, hik, hkj, hmem⟩ :=
          ih (on_sys_exit inp s0).state i2 j2 hi2 hj2 (by omega) ri rj
        refine ⟨k + 1, ?_, by omega, by omega, hmem⟩
        simp only [runTrace, List.length_cons]
        omega

/-! ## Concrete register snapshots and states used by the witnesses -/

/-- Registers at the exit of a successful anonymous `mmap(0, 0x1000, RW, PRIVATE|ANON, -1, 0)`:
`rax` holds the new base, `r8` holds `fd = -1` as a `u64`. -/
def regsMmapAnon : Regs := ⟨0x7000, 9, 0, 0x1000, 3, 0x22, W - 1, 0, 0x400002⟩

/-- Registers at the exit of a file-backed `mmap` (`fd = 5`). -/
def regsMmapFile : Regs := ⟨0x7000, 9, 0, 0x1000, 3, 2, 5, 0, 0x400002⟩

/-- Registers at the exit of an anonymous `mmap` with length 0. -/
def regsMmapZeroLen : Regs := ⟨0x5000, 9, 0, 0, 3, 0x22, W - 1, 0, 0x400002⟩

/-- Registers at the exit of an anonymous `mmap` that failed with `-EINVAL`:
`rax` holds `-22` as a `u64`. -/
def regsMmapFailed : Regs := ⟨W - 22, 9, 0, 0x1000, 3, 0x22, W - 1, 0, 0x400002⟩

/-- Registers at an `execve` exit. -/
def regsExecve : Regs := ⟨0, 59, 0, 0, 0, 0, 0, 0, 0x400002⟩

/-- Registers at an `execveat` exit. -/
def regsExecveat : Regs := ⟨0, 322, 0, 0, 0, 0, 0, 0, 0x400002⟩

/-- Registers at the exit of a `brk(0)` query returning `0x555000`. -/
def regsBrkQuery : Regs := ⟨0x555000, 12, 0, 0, 0, 0, 0, 0, 0x400002⟩

/-- Registers at the exit of a growing `brk(0x556000)`. -/
def regsBrkGrow : Regs := ⟨0x556000, 12, 0x556000, 0, 0, 0, 0, 0, 0x400002⟩

/-- A tracee that has not installed its uffd yet. -/
def sFresh : TraceeState := ⟨false, none, none⟩

/-- A tracee whose uffd handoff has completed. -/
def sInstalled : TraceeState := ⟨false, none, some ()⟩

/-- A tracee with an installed uffd and a known heap range. -/
def sHeapKnown : TraceeState := ⟨false, some ⟨0x555000, 0x555000⟩, some ()⟩

/-- One anonymous region in the proc-maps listing. -/
def procMap0 : ProcMap := ⟨0x1000, 0x1000, none⟩

/-- Return-value oracle for a successful handoff: staging page at `0x7000`,
`raw_uffd = 5`, `sock_fd = 6`, and non-negative returns everywhere. -/
def retOf0 : Nat → Nat := fun i => [0x7000, 5, 0, 6, 0, 8, 4, 0, 0, 0].getD i 0

/-! ## The claims -/

/-- C5: the injector primitive `invoke(nr, args)` starts from a copy of the
saved register snapshot, writes `nr` into the syscall-number register `rax`
and up to six arguments into `rdi, rsi, rdx, r10, r8, r9` in that order,
rewinds the instruction pointer by exactly 2 bytes (subtraction on `u64`,
modelled mod `W`), leaves every other saved register (here `orig_rax`)
unchanged, performs two syscall steps (the oracle `kern`), and returns the
value left in the tracee's `rax` register. -/
theorem invoke_patches_registers (saved : Regs) (kern : Regs → Regs)
    (nr a0 a1 a2 a3 a4 a5 : Nat) :
    patchRegs saved nr [a0, a1, a2, a3, a4, a5] =
      { rax := nr % W, orig_rax := saved.orig_rax, rdi := a0, rsi := a1, rdx := a2,
        r10 := a3, r8 := a4, r9 := a5, rip := (saved.rip + (W - 2)) % W } ∧
    invoke kern saved nr [a0, a1, a2, a3, a4, a5] =
      some ((kern (patchRegs saved nr [a0, a1, a2, a3, a4, a5])).rax) := by
  exact ⟨rfl, rfl⟩

/-- C7: the claim says every non-`ESRCH` ptrace error aborts the tracer, in
particular when resuming a tracee after a syscall-exit stop.  The code
disagrees: the resume after a syscall-exit stop (`Tracer::run`) only tests
the error against `ESRCH` to log a message and has no `else` branch, so a
non-`ESRCH` error such as `EPERM` is silently swallowed and the loop
continues, while the syscall-enter resume path does panic on the same
error.  This theorem evaluates both embedded paths at the failing input. -/
theorem resume_error_policy_divergence :
    resume_after_sys_exit (some Errno.EPERM) = TracerAction.continue_loop ∧
    resume_after_sys_exit (some Errno.EIO) = TracerAction.continue_loop ∧
    resume_after_sys_exit (some Errno.ESRCH) = TracerAction.continue_loop ∧
    resume_after_sys_enter (some Errno.EPERM) = TracerAction.abort ∧
    resume_after_sys_enter (some Errno.ESRCH) = TracerAction.continue_loop := by
  exact ⟨rfl, rfl, rfl, rfl, rfl⟩

/-- C9: an mmap exit with `fd == -1` and `addr == 0` produces a `Map`
event for any return value whatsoever — the code never checks that the
syscall succeeded, so a negative error return reinterpreted as an unsigned
address becomes the base of the reported range (`rax` is unconstrained
below, and the range end is the wrapping sum `(rax + len) % W`). -/
theorem mmap_failure_still_emits_map (inp : ExitInput) (s : TraceeState)
    (hu : s.uffd = some ()) (hnr : sysNr inp.regs = SYS_mmap)
    (hfd : toI32 inp.regs.r8 = -1) (haddr : inp.regs.rdi = 0) :
    (on_sys_exit inp s).mapped =
      some ⟨⟨inp.regs.rax, (inp.regs.rax + inp.regs.rsi) % W⟩, MemState.NotResident⟩ ∧
    (on_sys_exit inp s).sent = [] ∧
    (on_sys_exit inp s).injector_ran = false := by
  rw [on_sys_exit_out]
  simp only [injector_phase, hu, memory_phase, hnr,
    if_neg (by decide : ¬ execveFam SYS_mmap)]
  simp [hfd, haddr]

/-- C9 witness: an anonymous no-fixed-address `mmap` that failed with
`-EINVAL` (`rax = 2^64 - 22`) still yields a `Map` event whose base is the
error value reinterpreted as an address, and whose end wraps around the
64-bit address space. -/
theorem mmap_failure_still_emits_map_witness :
    sInstalled.uffd = some () ∧ sysNr regsMmapFailed = SYS_mmap ∧
    toI32 regsMmapFailed.r8 = -1 ∧ regsMmapFailed.rdi = 0 ∧
    (on_sys_exit ⟨regsMmapFailed, []⟩ sInstalled).mapped =
      some ⟨⟨W - 22, (W - 22 + 0x1000) % W⟩, MemState.NotResident⟩ := by
  refine ⟨rfl, by decide, by decide, rfl, ?_⟩
  exact (mmap_failure_still_emits_map ⟨regsMmapFailed, []⟩ sInstalled rfl
    (by decide) (by decide) rfl).1

/-- C3: on an mmap syscall exit (with the uffd already installed, so that
no injector events interleave), a `Map` region with range
`[ret, ret+len)` (the sum taken on `u64`) and residency `NotResident` is
produced if and only if the call's `fd` argument (`r8 as i32`) was `-1`
and its `addr` argument (`rdi`) was `0`; otherwise no region and no event
at all is produced. -/
theorem mmap_exit_map_iff_anon_nofixed (inp : ExitInput) (s : TraceeState)
    (hu : s.uffd = some ()) (hnr : sysNr inp.regs = SYS_mmap) :
    ((on_sys_exit inp s).mapped =
        some ⟨⟨inp.regs.rax, (inp.regs.rax + inp.regs.rsi) % W⟩, MemState.NotResident⟩ ↔
      toI32 inp.regs.r8 = -1 ∧ inp.regs.rdi = 0) ∧
    (¬ (toI32 inp.regs.r8 = -1 ∧ inp.regs.rdi = 0) →
      (on_sys_exit inp s).mapped = none) ∧
    (on_sys_exit inp s).sent = [] ∧
    (on_sys_exit inp s).state = s := by
  rw [on_sys_exit_out]
  simp only [injector_phase, hu, memory_phase, hnr,
    if_neg (by decide : ¬ execveFam SYS_mmap)]
  by_cases hc : toI32 inp.regs.r8 = -1 ∧ inp.regs.rdi = 0
  · simp [hc]
  · simp [hc]

/-- C2: behaviour of a `brk` syscall exit (with the uffd installed, so no
injector runs).  A `brk(0)` query records the returned value as the
initial heap range `ret..ret` only when none is known, and otherwise
changes nothing — so two consecutive `brk(0)` calls yield exactly one heap
initialisation and no `Map` regions.  A `brk` with a non-zero argument and
a known heap range stores the returned value as the new heap top, and a
`Mapped { old_top..ret, Resident }` region is produced exactly when the
heap grew. -/
theorem brk_exit_behavior (s : TraceeState) (hu : s.uffd = some ()) :
    (∀ inp : ExitInput, sysNr inp.regs = SYS_brk → inp.regs.rdi = 0 →
      s.heap_range = none →
      on_sys_exit inp s =
        ⟨{ s with heap_range := some ⟨inp.regs.rax, inp.regs.rax⟩ }, false, [], none⟩) ∧
    (∀ inp : ExitInput, sysNr inp.regs = SYS_brk → inp.regs.rdi = 0 →
      s.heap_range ≠ none →
      on_sys_exit inp s = ⟨s, false, [], none⟩) ∧
    (∀ (inp : ExitInput) (hr : Range), sysNr inp.regs = SYS_brk → inp.regs.rdi ≠ 0 →
      s.heap_range = some hr →
      (on_sys_exit inp s).state.heap_range = some ⟨hr.start, inp.regs.rax⟩ ∧
      (hr.stop < inp.regs.rax →
        (on_sys_exit inp s).mapped = some ⟨⟨hr.stop, inp.regs.rax⟩, MemState.Resident⟩) ∧
      (¬ hr.stop < inp.regs.rax → (on_sys_exit inp s).mapped = none) ∧
      (on_sys_exit inp s).sent = []) ∧
    (∀ inp1 inp2 : ExitInput, sysNr inp1.regs = SYS_brk → sysNr inp2.regs = SYS_brk →
      inp1.regs.rdi = 0 → inp2.regs.rdi = 0 → s.heap_range = none →
      (on_sys_exit inp1 s).mapped = none ∧
      (on_sys_exit inp2 (on_sys_exit inp1 s).state).mapped = none ∧
      (on_sys_exit inp2 (on_sys_exit inp1 s).state).state.heap_range =
        some ⟨inp1.regs.rax, inp1.regs.rax⟩) := by
  have key : ∀ inp : ExitInput, sysNr inp.regs = SYS_brk → inp.regs.rdi = 0 →
      s.heap_range = none →
      on_sys_exit inp s =
        ⟨{ s with heap_range := some ⟨inp.regs.rax, inp.regs.rax⟩ }, false, [], none⟩ := by
    intro inp hnr hq hh
    rw [on_sys_exit_out]
    simp only [injector_phase, hu, memory_phase, hnr,
      if_neg (by decide : ¬ execveFam SYS_brk),
      if_neg (by decide : ¬ (SYS_brk = SYS_mmap))]
    simp [hq, hh, hu]
  refine ⟨key, ?_, ?_, ?_⟩
  · intro inp hnr hq hh
    rw [on_sys_exit_out]
    simp only [injector_phase, hu, memory_phase, hnr,
      if_neg (by decide : ¬ execveFam SYS_brk),
      if_neg (by decide : ¬ (SYS_brk = SYS_mmap))]
    simp [hq, hh, hu]
  · intro inp hr hnr hq hh
    rw [on_sys_exit_out]
    simp only [injector_phase, hu, memory_phase, hnr,
      if_neg (by decide : ¬ execveFam SYS_brk),
      if_neg (by decide : ¬ (SYS_brk = SYS_mmap))]
    by_cases hg : hr.stop < inp.regs.rax
    · simp [hq, hh, hu, hg]
    · simp [hq, hh, hu, hg]
  · intro inp1 inp2 h1 h2 hq1 hq2 hh
    have e1 := key inp1 h1 hq1 hh
    rw [e1]
    have e2 : on_sys_exit inp2 { s with heap_range := some ⟨inp1.regs.rax, inp1.regs.rax⟩ } =
        ⟨{ s with heap_range := some ⟨inp1.regs.rax, inp1.regs.rax⟩ }, false, [], none⟩ := by
      rw [on_sys_exit_out]
      simp only [injector_phase, memory_phase, h2,
        if_neg (by decide : ¬ execveFam SYS_brk),
        if_neg (by decide : ¬ (SYS_brk = SYS_mmap))]
      simp [hq2, hu]
    refine ⟨rfl, ?_, ?_⟩
    · rw [e2]
    · rw [e2]

/-- C2 witness: from a fresh heap, `brk(0)` returning `0x555000` records
the heap range `0x555000..0x555000`; a second `brk(0)` changes nothing and
maps nothing; a growing `brk` to `0x556000` emits exactly the
`[0x555000, 0x556000)` `Resident` region. -/
theorem brk_exit_behavior_witness :
    sInstalled.uffd = some () ∧
    on_sys_exit ⟨regsBrkQuery, []⟩ sInstalled =
      ⟨sHeapKnown, false, [], none⟩ ∧
    on_sys_exit ⟨regsBrkQuery, []⟩ sHeapKnown = ⟨sHeapKnown, false, [], none⟩ ∧
    (on_sys_exit ⟨regsBrkGrow, []⟩ sHeapKnown).mapped =
      some ⟨⟨0x555000, 0x556000⟩, MemState.Resident⟩ := by
  have h := brk_exit_behavior sInstalled rfl
  refine ⟨rfl, ?_, ?_, ?_⟩
  · exact h.1 ⟨regsBrkQuery, []⟩ (by decide) rfl rfl
  · have h2 := brk_exit_behavior sHeapKnown rfl
    exact h2.2.1 ⟨regsBrkQuery, []⟩ (by decide) rfl (by decide)
  · have h2 := brk_exit_behavior sHeapKnown rfl
    exact (h2.2.2.1 ⟨regsBrkGrow, []⟩ ⟨0x555000, 0x555000⟩ (by decide) (by decide)
      rfl).2.1 (by decide)

/-- C4: when all of the handoff's fatal checks pass, `make_uffd` runs
exactly the injected syscall sequence — mmap a staging page,
`userfaultfd(0)`, `ioctl(UFFDIO_API)`,
`socket(AF_UNIX, SOCK_STREAM|SOCK_CLOEXEC)`, `connect` to the rendezvous
socket (address length 17 for `/tmp/mevi.sock`), `write` of the 8-byte
PID, `sendmsg` carrying the uffd via `SCM_RIGHTS`, `close(sock_fd)`,
`close(raw_uffd)`, `munmap` of the staging page — and the last register
file written into the tracee is exactly the saved snapshot (everything
after it only sends events), with `uffd` marked installed. -/
theorem uffd_handoff_sequence (retOf : Nat → Nat) (saved : Regs)
    (h : uffd_checks_pass retOf) :
    isOkRun (make_uffd_run retOf saved) = true ∧
    okCalls (make_uffd_run retOf saved) =
      [(SYS_mmap.toNat, [0, 0x1000, PROT_READ_WRITE, MAP_PRIVATE_ANONYMOUS, W - 1, 0]),
       (SYS_userfaultfd.toNat, [0]),
       (SYS_ioctl.toNat, [(toI32 (retOf 1 % W)).toNat, UFFDIO_API, retOf 0 % W]),
       (SYS_socket.toNat, [AF_UNIX, SOCK_STREAM_CLOEXEC, 0]),
       (SYS_connect.toNat, [(toI32 (retOf 3 % W)).toNat, retOf 0 % W, MEVI_SOCK_ADDR_LEN]),
       (SYS_write.toNat, [(toI32 (retOf 3 % W)).toNat, retOf 0 % W, 8]),
       (SYS_sendmsg.toNat, [(toI32 (retOf 3 % W)).toNat, retOf 0 % W, 0]),
       (SYS_close.toNat, [(toI32 (retOf 3 % W)).toNat]),
       (SYS_close.toNat, [(toI32 (retOf 1 % W)).toNat]),
       (SYS_munmap.toNat, [retOf 0 % W, 0x1000])] ∧
    (okSetregs (make_uffd_run retOf saved)).getLast? = some saved ∧
    okInstalled (make_uffd_run retOf saved) = true := by
  obtain ⟨h0, h1, h2, h3, h4, h5, h6⟩ := h
  unfold make_uffd_run
  rw [if_neg h0, if_neg (not_lt.mpr h1), if_neg (not_lt.mpr h2), if_neg (not_lt.mpr h3),
    if_neg (not_lt.mpr h4), if_neg (not_lt.mpr h5), if_neg (not_lt.mpr h6)]
  refine ⟨rfl, rfl, ?_, rfl⟩
  simp [okSetregs]

/-- C4 witness: with staging page `0x7000`, `raw_uffd = 5` and
`sock_fd = 6`, the handoff succeeds and its call list evaluates to the
expected concrete sequence, ending in the restored snapshot. -/
theorem uffd_handoff_sequence_witness :
    uffd_checks_pass retOf0 ∧
    okCalls (make_uffd_run retOf0 regsExecve) =
      [(9, [0, 0x1000, 3, 0x22, W - 1, 0]),
       (323, [0]),
       (16, [5, 0xc018aa3f, 0x7000]),
       (41, [1, 0x80001, 0]),
       (42, [6, 0x7000, 17]),
       (1, [6, 0x7000, 8]),
       (46, [6, 0x7000, 0]),
       (3, [6]),
       (3, [5]),
       (11, [0x7000, 0x1000])] ∧
    (okSetregs (make_uffd_run retOf0 regsExecve)).getLast? = some regsExecve ∧
    okInstalled (make_uffd_run retOf0 regsExecve) = true := by
  have h := uffd_handoff_sequence retOf0 regsExecve (by decide)
  exact ⟨by decide, h.2.1, h.2.2.1, h.2.2.2⟩

/-- C10: only `execve`, not `execveat`, is on the too-early allowlist.  For
a tracee without an installed uffd whose syscall exit is `execveat`, the
injector runs (emitting the initial map enumeration), and then the
`execve`/`execveat` branch of the same exit handler immediately resets
`uffd` to `none` and clears the heap range, emitting `Execve` and no `Map`
region; an `execve` exit in the same state does not run the injector. -/
theorem execveat_triggers_injector_then_reset (inp : ExitInput) (s : TraceeState)
    (hu : s.uffd = none) (hnr : sysNr inp.regs = SYS_execveat) :
    (on_sys_exit inp s).injector_ran = true ∧
    (on_sys_exit inp s).state.uffd = none ∧
    (on_sys_exit inp s).state.heap_range = none ∧
    (on_sys_exit inp s).sent = enumerate_maps inp.maps ++ [TraceePayload.Execve] ∧
    (on_sys_exit inp s).mapped = none ∧
    (∀ inp2 : ExitInput, sysNr inp2.regs = SYS_execve →
      (on_sys_exit inp2 s).injector_ran = false) := by
  rw [on_sys_exit_out]
  simp only [injector_phase, hu, memory_phase, hnr,
    if_pos (by decide : execveFam SYS_execveat),
    if_neg (by decide : ¬ tooEarly SYS_execveat)]
  refine ⟨by simp, by simp, by simp, by simp, by simp, ?_⟩
  intro inp2 h2
  rw [on_sys_exit_out]
  simp only [injector_phase, hu, h2, if_pos (by decide : tooEarly SYS_execve)]
  simp

/-- C10 witness: an `execveat` exit for a fresh tracee with one anonymous
region in its maps listing runs the injector, sends the enumerated `Map`
followed by `Execve`, and leaves `uffd` and `heap_range` cleared, while an
`execve` exit does not run the injector. -/
theorem execveat_triggers_injector_then_reset_witness :
    sFresh.uffd = none ∧ sysNr regsExecveat = SYS_execveat ∧
    (on_sys_exit ⟨regsExecveat, [procMap0]⟩ sFresh).injector_ran = true ∧
    (on_sys_exit ⟨regsExecveat, [procMap0]⟩ sFresh).sent =
      [TraceePayload.Map ⟨0x1000, 0x2000⟩ MemState.NotResident ⟨none⟩,
       TraceePayload.Execve] ∧
    (on_sys_exit ⟨regsExecveat, [procMap0]⟩ sFresh).state.uffd = none ∧
    (on_sys_exit ⟨regsExecve, [procMap0]⟩ sFresh).injector_ran = false := by
  have h := execveat_triggers_injector_then_reset ⟨regsExecveat, [procMap0]⟩ sFresh rfl
    (by decide)
  refine ⟨rfl, by decide, h.1, ?_, h.2.1, h.2.2.2.2.2 ⟨regsExecve, [procMap0]⟩ (by decide)⟩
  rw [h.2.2.2.1]
  decide

/-- C1 counterexample: a syscall exit that triggers the UFFD handoff (a
file-backed `mmap` by a fresh tracee) makes the initial map enumerator
send a `Map` event whose completion token is absent
(`MapGuard { _inner: None }`) and on which the tracer does not block at
all (`waits_for_guard_drop = false`), refuting the claim that every `Map`
event — in particular those of the initial map enumerator — uses the
completion-token backpressure. -/
theorem enumerator_map_skips_backpressure_cex :
    exit_emissions (on_sys_exit ⟨regsMmapFile, [procMap0]⟩ sFresh) =
      [⟨TraceePayload.Map ⟨0x1000, 0x2000⟩ MemState.NotResident ⟨none⟩, false⟩] ∧
    (on_sys_exit ⟨regsMmapFile, [procMap0]⟩ sFresh).injector_ran = true := by
  exact ⟨by decide, by decide⟩

/-- C1 amended: only the `Map` events synthesised from an observed syscall
(`Tracer::run` delivering the returned `Mapped`) carry a live completion
token and block the tracer until the consumer drops it; every `Map` event
sent directly inside `on_sys_exit` — i.e. by the initial map enumerator —
carries no token (`MapGuard { _inner: None }`) and is not waited on, and
the token-carrying `Map` built from the returned region is the only
emission the tracer blocks on. -/
theorem map_event_backpressure_amended (inp : ExitInput) (s : TraceeState) :
    (∀ m : Mapped, (on_sys_exit inp s).mapped = some m →
      (⟨TraceePayload.Map m.range m.resident ⟨some ()⟩, true⟩ : Emission) ∈
        exit_emissions (on_sys_exit inp s)) ∧
    (∀ r st g, TraceePayload.Map r st g ∈ (on_sys_exit inp s).sent → g = ⟨none⟩) ∧
    (∀ e : Emission, e ∈ exit_emissions (on_sys_exit inp s) →
      e.waits_for_guard_drop = true →
      ∃ m : Mapped, (on_sys_exit inp s).mapped = some m ∧
        e = ⟨TraceePayload.Map m.range m.resident ⟨some ()⟩, true⟩) := by
  refine ⟨?_, sent_map_guard_none inp s, ?_⟩
  · intro m hm
    simp [exit_emissions, hm]
  · intro e he hw
    rcases hm : (on_sys_exit inp s).mapped with _ | m
    · simp only [exit_emissions, hm, List.append_nil, List.mem_map] at he
      obtain ⟨p, _, hp⟩ := he
      rw [← hp] at hw
      simp at hw
    · simp only [exit_emissions, hm, List.mem_append, List.mem_map,
        List.mem_singleton] at he
      rcases he with ⟨p, _, hp⟩ | he
      · rw [← hp] at hw
        simp at hw
      · exact ⟨m, rfl, he⟩

/-- C1 amended witness: the `Map` event built from the anonymous `mmap`
observation carries a live token and is waited on. -/
theorem map_event_backpressure_amended_witness :
    (⟨TraceePayload.Map ⟨0x7000, 0x8000⟩ MemState.NotResident ⟨some ()⟩, true⟩ : Emission) ∈
      exit_emissions (on_sys_exit ⟨regsMmapAnon, []⟩ sInstalled) :=
  (map_event_backpressure_amended ⟨regsMmapAnon, []⟩ sInstalled).1
    ⟨⟨0x7000, 0x8000⟩, MemState.NotResident⟩ (by decide)

/-- C8 counterexample: an anonymous no-fixed-address `mmap` whose length
argument is `0` produces a `Map` region with `start = stop = 0x5000` — an
empty range — refuting the claim that every produced region satisfies
`start < stop`. -/
theorem zero_length_mmap_empty_range_cex :
    (on_sys_exit ⟨regsMmapZeroLen, []⟩ sInstalled).mapped =
      some ⟨⟨0x5000, 0x5000⟩, MemState.NotResident⟩ ∧
    ¬ ((0x5000 : Nat) < 0x5000) := by
  exact ⟨by decide, by decide⟩

/-- C8 amended: `Map` regions from the brk-growth path always satisfy
`start < stop`; regions from the mmap-observation path have
`stop = (start + len) % W` with no emptiness check in the code, so they
satisfy `start < stop` only when the requested length is positive (and the
sum does not wrap); regions from the initial map enumerator have
`stop = start + size`, non-empty exactly when the listed size is
positive. -/
theorem map_event_ranges_amended (inp : ExitInput) (s : TraceeState)
    (hu : s.uffd = some ()) :
    (sysNr inp.regs = SYS_brk → ∀ m : Mapped, (on_sys_exit inp s).mapped = some m →
      m.range.start < m.range.stop) ∧
    (sysNr inp.regs = SYS_mmap → ∀ m : Mapped, (on_sys_exit inp s).mapped = some m →
      m.range = ⟨inp.regs.rax, (inp.regs.rax + inp.regs.rsi) % W⟩ ∧
      (0 < inp.regs.rsi → inp.regs.rax + inp.regs.rsi < W →
        m.range.start < m.range.stop)) ∧
    (∀ r st g, TraceePayload.Map r st g ∈ enumerate_maps inp.maps →
      ∃ pm, pm ∈ inp.maps ∧ r = ⟨pm.start, pm.start + pm.size⟩ ∧
        (0 < pm.size → r.start < r.stop)) := by
  refine ⟨?_, ?_, ?_⟩
  · intro hnr m hm
    rw [on_sys_exit_out] at hm
    simp only [injector_phase, hu, memory_phase, hnr,
      if_neg (by decide : ¬ execveFam SYS_brk),
      if_neg (by decide : ¬ (SYS_brk = SYS_mmap))] at hm
    by_cases h4 : inp.regs.rdi = 0
    · rcases hh : s.heap_range with _ | hr <;> simp [h4, hh, hu] at hm
    · rcases hh : s.heap_range with _ | hr
      · simp [h4, hh, hu] at hm
      · by_cases hg : hr.stop < inp.regs.rax
        · simp only [h4, hh, hu] at hm
          simp [h4, hh, hu, hg] at hm
          rw [← hm]
          exact hg
        · simp [h4, hh, hu, hg] at hm
  · intro hnr m hm
    rw [on_sys_exit_out] at hm
    simp only [injector_phase, hu, memory_phase, hnr,
      if_neg (by decide : ¬ execveFam SYS_mmap)] at hm
    by_cases hc : toI32 inp.regs.r8 = -1 ∧ inp.regs.rdi = 0
    · simp [hc, hu] at hm
      constructor
      · rw [← hm]
      · intro hlen hov
        rw [← hm]
        have hmod : (inp.regs.rax + inp.regs.rsi) % W = inp.regs.rax + inp.regs.rsi :=
          Nat.mod_eq_of_lt hov
        simp only [hmod]
        omega
    · simp [hc, hu] at hm
  · intro r st g h
    simp only [enumerate_maps, List.mem_map, List.mem_filter] at h
    obtain ⟨pm, ⟨hpm, _⟩, he⟩ := h
    cases he
    refine ⟨pm, hpm, rfl, fun hpos => ?_⟩
    show pm.start < pm.start + pm.size
    omega

/-- C8 amended witness: the brk growth from the heap-known state yields a
non-empty range, and the anonymous `mmap` region has the computed bounds. -/
theorem map_event_ranges_amended_witness :
    sHeapKnown.uffd = some () ∧
    (0x555000 : Nat) < 0x556000 ∧
    (⟨⟨0x7000, 0x8000⟩, MemState.NotResident⟩ : Mapped).range =
      ⟨regsMmapAnon.rax, (regsMmapAnon.rax + regsMmapAnon.rsi) % W⟩ := by
  refine ⟨rfl, ?_, ?_⟩
  · exact (map_event_ranges_amended ⟨regsBrkGrow, []⟩ sHeapKnown rfl).1 (by decide)
      ⟨⟨0x555000, 0x556000⟩, MemState.Resident⟩ (by decide)
  · exact ((map_event_ranges_amended ⟨regsMmapAnon, []⟩ sInstalled rfl).2.1 (by decide)
      ⟨⟨0x7000, 0x8000⟩, MemState.NotResident⟩ (by decide)).1

/-- C6: for every tracee the injector runs at most once between any two
`Execve` events: along any run of syscall exits, if the injector ran at
two positions then an `Execve` event was emitted at some position between
them; moreover the injector is attempted only while `uffd` is not
installed and the syscall is not on the too-early allowlist, its
completion (for a non-execve-family exit) leaves `uffd` installed, and the
only step that takes `uffd` from installed back to none is an
`execve`/`execveat` exit, which also clears the heap range, emits
`Execve`, and produces no `Map` region. -/
theorem injector_at_most_once_between_execves (l : List ExitInput) (s0 : TraceeState)
    (i j : Nat) (hi : i < (runTrace s0 l).length) (hj : j < (runTrace s0 l).length)
    (hij : i < j)
    (ri : ((runTrace s0 l).get ⟨i, hi⟩).out.injector_ran = true)
    (rj : ((runTrace s0 l).get ⟨j, hj⟩).out.injector_ran = true) :
    (∃ k, ∃ hk : k < (runTrace s0 l).length, i ≤ k ∧ k < j ∧
      TraceePayload.Execve ∈ ((runTrace s0 l).get ⟨k, hk⟩).out.sent) ∧
    ((runTrace s0 l).get ⟨i, hi⟩).before.uffd = none ∧
    ¬ tooEarly (sysNr ((runTrace s0 l).get ⟨i, hi⟩).inp.regs) ∧
    (¬ execveFam (sysNr ((runTrace s0 l).get ⟨i, hi⟩).inp.regs) →
      ((runTrace s0 l).get ⟨i, hi⟩).out.state.uffd = some ()) ∧
    (∀ k, ∀ hk : k < (runTrace s0 l).length,
      ((runTrace s0 l).get ⟨k, hk⟩).before.uffd = some () →
      ((runTrace s0 l).get ⟨k, hk⟩).out.state.uffd = none →
      execveFam (sysNr ((runTrace s0 l).get ⟨k, hk⟩).inp.regs) ∧
      ((runTrace s0 l).get ⟨k, hk⟩).out.state.heap_range = none ∧
      TraceePayload.Execve ∈ ((runTrace s0 l).get ⟨k, hk⟩).out.sent ∧
      ((runTrace s0 l).get ⟨k, hk⟩).out.mapped = none) := by
  refine ⟨runTrace_two_runs l s0 i j hi hj hij ri rj,
    runTrace_ran_before s0 l i hi ri, ?_, ?_, ?_⟩
  · rw [runTrace_out s0 l i hi] at ri
    exact (on_sys_exit_ran_before _ _ ri).2
  · intro hfam
    rw [runTrace_out s0 l i hi] at ri
    rw [runTrace_out s0 l i hi]
    exact on_sys_exit_ran_installs _ _ ri hfam
  · intro k hk hbefore hafter
    rw [runTrace_out s0 l k hk] at hafter
    rw [runTrace_out s0 l k hk]
    have hfam := on_sys_exit_uffd_reset _ _ hbefore hafter
    have he := on_sys_exit_execve ((runTrace s0 l).get ⟨k, hk⟩).inp
      ((runTrace s0 l).get ⟨k, hk⟩).before hfam
    exact ⟨hfam, he.2.1, he.2.2.1, he.2.2.2⟩

/-- Three syscall exits for one tracee: a file-backed `mmap` (triggering
the handoff), an `execve`, and an anonymous `mmap` (triggering a second
handoff). -/
def lC6 : List ExitInput :=
  [⟨regsMmapFile, [procMap0]⟩, ⟨regsExecve, []⟩, ⟨regsMmapAnon, []⟩]

/-- C6 witness: on the concrete three-exit run the injector runs at
positions 0 and 2, and the theorem yields an `Execve` emission strictly
between them (it is the `execve` at position 1). -/
theorem injector_at_most_once_between_execves_witness :
    ∃ k, ∃ hk : k < (runTrace sFresh lC6).length, 0 ≤ k ∧ k < 2 ∧
      TraceePayload.Execve ∈ ((runTrace sFresh lC6).get ⟨k, hk⟩).out.sent :=
  (injector_at_most_once_between_execves lC6 sFresh 0 2 (by decide) (by decide)
    (by decide) (by decide) (by decide)).1

/-- C3 witness: the anonymous no-fixed-address `mmap` produces exactly the
`[0x7000, 0x8000)` `NotResident` region, and the file-backed `mmap`
(`fd = 5`) produces nothing. -/
theorem mmap_exit_map_iff_anon_nofixed_witness :
    sInstalled.uffd = some () ∧ sysNr regsMmapAnon = SYS_mmap ∧
    (on_sys_exit ⟨regsMmapAnon, []⟩ sInstalled).mapped =
      some ⟨⟨0x7000, 0x8000⟩, MemState.NotResident⟩ ∧
    (on_sys_exit ⟨regsMmapFile, []⟩ sInstalled).mapped = none := by
  refine ⟨rfl, by decide, ?_, ?_⟩
  · have h := (mmap_exit_map_iff_anon_nofixed ⟨regsMmapAnon, []⟩ sInstalled rfl
      (by decide)).1.mpr ⟨by decide, rfl⟩
    simpa using h
  · exact (mmap_exit_map_iff_anon_nofixed ⟨regsMmapFile, []⟩ sInstalled rfl
      (by decide)).2.1 (by decide)

end Mevi
